import Mathlib

/-!
Shallow embedding of the kucoin-data-collector pipeline.

The repository downloads dated ZIP archives from a paginated S3-style
listing host, verifies them and extracts CSV content.  The definitions
below are translated from the JavaScript sources:

* `src/worker_system_production_adapted.js` — `discoverFilesWithXML`
  (regex listing parse + marker pagination), `fetchXML` (listing fetch
  with retries), `downloadFileWithRetry` (transfer), `verifyChecksum`,
  `validateZipFile` (schema part).
* `src/unnamed/part_002` — `downloadFile` (streaming transfer with
  size checks and skip-on-match), `downloaderWorker` (queue / retry /
  permanent-failure state machine).
* `src/github_actions_worker.js` — `downloadFile` (existing-file check).

Network responses, the wall clock and the MD5 digest are inputs of the
model: a listing run is a list of per-request server responses, `now`
is the timestamp `new Date().toISOString()` would produce, and hashes
are abstracted by the digest string (or a hash function) they return.
-/

deriving instance DecidableEq for Except

namespace KucoinCollector

/-! ## Character-level string operations

    The JavaScript string primitives the sources use, defined over the
    character list of a `String` so that concrete runs reduce inside the
    kernel. -/

/-- JavaScript `String.prototype.trim`: strip whitespace from both ends. -/
def trimChars (l : List Char) : List Char :=
  ((l.dropWhile Char.isWhitespace).reverse.dropWhile Char.isWhitespace).reverse

def jsTrim (s : String) : String := ⟨trimChars s.data⟩

/-- JavaScript `String.prototype.endsWith`. -/
def jsEndsWith (s suf : String) : Bool :=
  suf.data.isSuffixOf s.data

/-- JavaScript `String.prototype.split` with a one-character separator:
    `"a/".split('/')` is `["a", ""]` and `"".split('/')` is `[""]`. -/
def splitCharsOn (sep : Char) : List Char → List (List Char)
  | [] => [[]]
  | c :: cs =>
    let r := splitCharsOn sep cs
    if c == sep then [] :: r
    else
      match r with
      | [] => [[c]]
      | g :: gs => (c :: g) :: gs

/-- Split at every character satisfying `p` (used to model tokenizing a
    body on whitespace). -/
def splitCharsWhen (p : Char → Bool) : List Char → List (List Char)
  | [] => [[]]
  | c :: cs =>
    let r := splitCharsWhen p cs
    if p c then [] :: r
    else
      match r with
      | [] => [[c]]
      | g :: gs => (c :: g) :: gs

/-- JavaScript `String.prototype.toLowerCase` on the ASCII range (the
    digests and headers compared in the sources are ASCII). -/
def asciiLowerChar (c : Char) : Char :=
  if 'A' ≤ c ∧ c ≤ 'Z' then Char.ofNat (c.toNat + 32) else c

def jsToLower (s : String) : String := ⟨s.data.map asciiLowerChar⟩

/-- Substring containment on character lists: JavaScript
    `String.prototype.includes`. -/
def containsChars : List Char → List Char → Bool
  | l, pat =>
    pat.isPrefixOf l ||
      match l with
      | [] => false
      | _ :: t => containsChars t pat

def jsIncludes (s sub : String) : Bool := containsChars s.data sub.data

/-! ## Discovery: regex listing parse and marker pagination
    (`discoverFilesWithXML`, src/worker_system_production_adapted.js 54-145) -/

/-- A descriptor as pushed onto `files` by `discoverFilesWithXML`. -/
structure FileDesc where
  symbol : String
  filename : String
  url : String
  checksumUrl : String
  size : Nat
  lastModified : String
deriving Repr, DecidableEq

def hostBase : String := "https://historical-data.kucoin.com/"

/-- The inclusion filter of line 83:
    `key.endsWith('.zip') && !key.endsWith('.zip.CHECKSUM')`. -/
def includeKey (key : String) : Bool :=
  jsEndsWith key ".zip" && !jsEndsWith key ".zip.CHECKSUM"

/-- `key.split('/').pop()` of line 84: the last `/`-separated component. -/
def filenameOf (key : String) : String :=
  ⟨(splitCharsOn '/' key.data).getLastD []⟩

/-- One listing response page, as seen through the three regexes of
    lines 74-76: the `<Key>` values in order, the numeric values of the
    `<Size>` elements in order (`parseInt` applied), the `<LastModified>`
    values in order, the `<IsTruncated>true</IsTruncated>` flag and the
    optional `<NextMarker>` value.  Because the regexes collect each tag
    kind independently, an entry that omits `<Size>` or `<LastModified>`
    shortens that list without leaving a gap at its position. -/
structure Page where
  keys : List String
  sizes : List Nat
  lastMods : List String
  isTruncated : Bool
  nextMarker : Option String
deriving Repr, DecidableEq

/-- The descriptor built for the key at position `i` (lines 84-99):
    `sizeMatches[index]` falls back to `0` when absent, and a missing
    `lastModifiedMatches[index]` falls back to `new Date().toISOString()`,
    modelled by the parameter `now`. -/
def mkDesc (sym now : String) (sizes : List Nat) (mods : List String)
    (i : Nat) (key : String) : FileDesc :=
  { symbol := sym
    filename := filenameOf key
    url := hostBase ++ key
    checksumUrl := hostBase ++ key ++ ".CHECKSUM"
    size := (sizes.get? i).getD 0
    lastModified := (mods.get? i).getD now }

/-- The `keyMatches.forEach((keyMatch, index) => ...)` loop of lines
    79-101: walk the keys with their index, keep the included ones. -/
def parseKeys (sym now : String) (sizes : List Nat) (mods : List String) :
    Nat → List String → List FileDesc
  | _, [] => []
  | i, k :: ks =>
    if includeKey k then
      mkDesc sym now sizes mods i k :: parseKeys sym now sizes mods (i + 1) ks
    else
      parseKeys sym now sizes mods (i + 1) ks

def parsePage (sym now : String) (p : Page) : List FileDesc :=
  parseKeys sym now p.sizes p.lastMods 0 p.keys

/-- The `while (true)` pagination loop of lines 60-134, driven by the
    successive server responses.  Each loop iteration consumes the next
    response; `Except.error` stands for a `fetchXML` rejection after its
    retry budget, which the surrounding `try`/`catch` rethrows (lines
    141-144), discarding the accumulator.  After a page the loop stops
    when `IsTruncated` is absent, continues when a `NextMarker` exists,
    falls back to the last key as marker when the page had keys, and
    stops otherwise (lines 108-130). -/
def discoverGo (sym now : String) :
    List (Except String Page) → List FileDesc → Except String (List FileDesc)
  | [], acc => .ok acc
  | .error e :: _, _ => .error e
  | .ok p :: rest, acc =>
    let acc2 := acc ++ parsePage sym now p
    if !p.isTruncated then .ok acc2
    else if p.nextMarker.isSome then discoverGo sym now rest acc2
    else if p.keys.isEmpty then .ok acc2
    else discoverGo sym now rest acc2

def discoverFilesWithXML (sym now : String)
    (responses : List (Except String Page)) : Except String (List FileDesc) :=
  discoverGo sym now responses []

/-- A page that makes the loop request a further page: truncated, with
    either an explicit `NextMarker` or at least one key for the
    last-key fallback. -/
def pageContinues (p : Page) : Bool :=
  p.isTruncated && (p.nextMarker.isSome || !p.keys.isEmpty)

/-- A response sequence that the loop consumes in full: every page but
    the last continues the pagination, and the last is not truncated. -/
def wellFormedPages : List Page → Bool
  | [] => false
  | [p] => !p.isTruncated
  | p :: rest => pageContinues p && wellFormedPages rest

/-! ## Transfer: the adapted worker's download
    (`downloadFileWithRetry`, src/worker_system_production_adapted.js 183-230) -/

/-- Running state of one download: the `downloadedBytes` counter and the
    bytes present in the local file opened by `createWriteStream`
    (which truncates the target to empty). -/
structure DLRun where
  downloadedBytes : Nat
  fileContent : List Nat
deriving Repr, DecidableEq

/-- The `response.on('data', ...)` handler of lines 195-197: the chunk
    length is added to the counter; the chunk is never written to
    `fileStream` (no `pipe`, no `write` call exists in the function). -/
def adaptedOnData (st : DLRun) (chunk : List Nat) : DLRun :=
  { st with downloadedBytes := st.downloadedBytes + chunk.length }

/-- The success path of `downloadFileWithRetry` over the response body
    chunks: the stream is opened (file content now empty), every chunk
    fires `adaptedOnData`, and `'end'` closes the stream and resolves
    `{ success: true, bytes: downloadedBytes }` (lines 192-202). -/
def downloadFileWithRetryRun (chunks : List (List Nat)) : DLRun :=
  chunks.foldl adaptedOnData { downloadedBytes := 0, fileContent := [] }

/-! ## Transfer: part_002's streaming download
    (`downloadFile`, src/unnamed/part_002 305-419) -/

/-- One iteration of the `reader.read()` loop (lines 368-379): the chunk
    is written to the file and counted, and when a nonzero expected size
    is known and exceeded the download aborts as a size mismatch
    (`expectedSize` is falsy in JS exactly when it is `0`). -/
def part002Step (expectedSize : Nat) (st : DLRun) (chunk : List Nat) :
    Except String DLRun :=
  let st2 : DLRun :=
    { downloadedBytes := st.downloadedBytes + chunk.length
      fileContent := st.fileContent ++ chunk }
  if expectedSize ≠ 0 ∧ expectedSize < st2.downloadedBytes then
    .error "Download size mismatch"
  else
    .ok st2

/-- The chunk loop followed by the final `fs.stat` size check of lines
    387-391. -/
def part002Loop (expectedSize : Nat) : DLRun → List (List Nat) → Except String DLRun
  | st, [] =>
    if expectedSize ≠ 0 ∧ st.fileContent.length ≠ expectedSize then
      .error "Final size mismatch"
    else
      .ok st
  | st, c :: cs =>
    match part002Step expectedSize st c with
    | .error e => .error e
    | .ok st2 => part002Loop expectedSize st2 cs

def part002Download (expectedSize : Nat) (chunks : List (List Nat)) :
    Except String DLRun :=
  part002Loop expectedSize { downloadedBytes := 0, fileContent := [] } chunks

/-! ## Checksum verification
    (`verifyChecksum`, src/worker_system_production_adapted.js 233-253) -/

/-- JavaScript `String.prototype.split` called with no separator: it
    returns a one-element array containing the whole string (it does not
    split on whitespace). -/
def jsSplitNoSep (s : String) : List String := [s]

/-- `verifyChecksum` with the MD5 computation abstracted: `actualHex` is
    the hex digest `crypto` produced for the archive bytes (the code
    lowercases it, and lowercases the expected side too).  The expected
    value is `checksumContent.trim().split()[0].toLowerCase()`. -/
def verifyChecksum (checksumContent : String) (actualHex : String) : Bool :=
  let expected := jsToLower ((jsSplitNoSep (jsTrim checksumContent)).headD "")
  let actual := jsToLower actualHex
  expected == actual

/-- Modelled from the spec: the sidecar body is whitespace-delimited
    text whose first token is the expected hex digest, compared
    case-insensitively against the computed digest. -/
def specFirstTokenValid (checksumContent : String) (actualHex : String) : Bool :=
  let tokens := (splitCharsWhen Char.isWhitespace checksumContent.data).filter
    (fun t => !t.isEmpty)
  jsToLower ⟨tokens.headD []⟩ == jsToLower actualHex

/-! ## Listing fetch with retries
    (`fetchXML`, src/worker_system_production_adapted.js 148-180) -/

/-- `WORKER_CONFIG.maxRetries`. -/
def maxRetries : Nat := 5

/-- `WORKER_CONFIG.retryDelay`, in milliseconds. -/
def retryDelayMs : Nat := 2000

/-- What one HTTP attempt of `fetchXML` can produce. -/
inductive FetchOutcome
  | ok (body : String)
  | httpStatus (code : Nat)
  | timeout
  | netError (msg : String)
deriving Repr, DecidableEq

/-- `fetchXML url retryCount` over the successive attempt outcomes.
    Returns the settled promise value and the list of delays slept
    before each retry.  A non-200 status rejects from inside the
    response handler with no retry (lines 152-155); a timeout destroys
    the request and rejects with no retry (lines 175-178); only the
    request `'error'` event retries, sleeping
    `retryDelay * (retryCount + 1)` (lines 162-173). -/
def fetchXML : Nat → List FetchOutcome → Except String String × List Nat
  | _, [] => (.error "no response", [])
  | retryCount, o :: rest =>
    match o with
    | .ok body => (.ok body, [])
    | .httpStatus code => (.error ("HTTP " ++ toString code), [])
    | .timeout => (.error "Request timeout", [])
    | .netError m =>
      if retryCount < maxRetries then
        let r := fetchXML (retryCount + 1) rest
        (r.1, retryDelayMs * (retryCount + 1) :: r.2)
      else
        (.error m, [])

/-! ## Existing-file checks before a transfer
    (src/unnamed/part_002 311-334 and src/github_actions_worker.js 187-197) -/

/-- The local file at the target path before a transfer. -/
inductive LocalFile
  | absent
  | present (size : Nat)
deriving Repr, DecidableEq

/-- What the pre-download check decides to do. -/
inductive PreAction
  | skipDownload
  | deleteThenFetch
  | fetch
deriving Repr, DecidableEq

/-- part_002 `downloadFile` lines 311-334: `fs.stat`; equal size skips
    and returns true, a differing size unlinks the file and proceeds,
    a missing file proceeds. -/
def downloadFilePrecheck (descSize : Nat) (lf : LocalFile) : PreAction :=
  match lf with
  | .absent => .fetch
  | .present s => if s = descSize then .skipDownload else .deleteThenFetch

/-- github_actions_worker `downloadFile` lines 187-197: `fs.stat`; any
    existing file with `stats.size > 0` is treated as complete and
    skipped; the descriptor's expected size is never consulted, and a
    mismatched file is never deleted. -/
def githubDownloadPrecheck (_descSize : Nat) (lf : LocalFile) : PreAction :=
  match lf with
  | .absent => .fetch
  | .present s => if 0 < s then .skipDownload else .fetch

/-- Network requests issued by the chosen action: a skip performs none,
    the other actions fetch the file. -/
def requestCount : PreAction → Nat
  | .skipDownload => 0
  | .deleteThenFetch => 1
  | .fetch => 1

/-! ## Downloader queue state machine
    (`downloaderWorker`, src/unnamed/part_002 422-538) -/

/-- A queued work item: its identity (each JS object pushed by the
    scraper is a distinct mutable object), its `retries` counter and its
    last error message. -/
structure WItem where
  wid : Nat
  retries : Nat
  lastError : String
deriving Repr, DecidableEq

/-- The shared pools: `downloadQueue`, the items sitting in pending
    `setTimeout` callbacks, `retryQueue`, `state.failedDownloads` and
    the successfully downloaded items. -/
structure PoolState where
  primaryQ : List WItem
  timers : List WItem
  retryQ : List WItem
  failed : List WItem
  succeeded : List WItem
deriving Repr, DecidableEq

/-- Events the single-threaded event loop can interleave. -/
inductive PoolEvent
  | enqueue (id : Nat)
  | timerFire
  | attempt (ok : Bool) (err : String)
deriving Repr, DecidableEq

/-- Identities currently on the primary queue, in a pending retry timer
    or on the retry queue — everywhere an item can still be picked up. -/
def activeIds (s : PoolState) : List Nat :=
  (s.primaryQ ++ s.timers ++ s.retryQ).map WItem.wid

def allIds (s : PoolState) : List Nat :=
  (s.primaryQ ++ s.timers ++ s.retryQ ++ s.failed ++ s.succeeded).map WItem.wid

/-- Lines 429-434: a downloader takes the retry queue's head when
    non-empty, otherwise the primary queue's head. -/
def dequeue (s : PoolState) : Option (WItem × PoolState) :=
  match s.retryQ with
  | w :: rest => some (w, { s with retryQ := rest })
  | [] =>
    match s.primaryQ with
    | w :: rest => some (w, { s with primaryQ := rest })
    | [] => none

/-- One event of the downloader system.
    `enqueue`: the scraper pushes a fresh item with `retries: 0`
    (lines 186-194); the guard models that each pushed object is a new
    identity.  `timerFire`: a `setTimeout` callback pushes its item
    onto the retry queue (lines 486-488).  `attempt`: a downloader
    dequeues and the download succeeds (lines 450-461) or fails
    (lines 463-507): `file.retries++`; below `maxRetries` the item is
    scheduled for the retry queue, otherwise it is recorded in
    `state.failedDownloads` with its last error and dropped from every
    queue. -/
def step (s : PoolState) (e : PoolEvent) : PoolState :=
  match e with
  | .enqueue id =>
    if id ∈ allIds s then s
    else { s with primaryQ := s.primaryQ ++ [⟨id, 0, ""⟩] }
  | .timerFire =>
    match s.timers with
    | [] => s
    | w :: rest => { s with timers := rest, retryQ := s.retryQ ++ [w] }
  | .attempt ok err =>
    match dequeue s with
    | none => s
    | some (w, s2) =>
      if ok then { s2 with succeeded := s2.succeeded ++ [w] }
      else
        let w2 : WItem := { w with retries := w.retries + 1, lastError := err }
        if w2.retries < maxRetries then { s2 with timers := s2.timers ++ [w2] }
        else { s2 with failed := s2.failed ++ [w2] }

def runPool (s : PoolState) (es : List PoolEvent) : PoolState :=
  es.foldl step s

/-! ## Schema validation of the extracted CSV
    (`validateZipFile`, src/worker_system_production_adapted.js 256-302) -/

def expectedHeaders : List String :=
  ["trade_id", "trade_time", "price", "size", "side"]

/-- Lines 278: `csvData.split('\n').filter(line => line.trim().length > 0)`. -/
def nonBlankLines (csvData : String) : List String :=
  ((splitCharsOn '\n' csvData.data).map fun cs => (⟨cs⟩ : String)).filter
    (fun l => 0 < (jsTrim l).length)

structure CsvReport where
  dataRows : Nat
  csvLineCount : Nat
  csvHash : String
deriving Repr, DecidableEq

/-- The schema-validation portion of `validateZipFile` (lines 278-297),
    applied to the inner CSV text; the MD5 hex digest is abstracted by
    `hash`.  Fewer than two non-blank lines fail; a header that does not
    contain every required name (compared after lowercasing the header;
    the required names are lowercase literals) fails; otherwise the
    result carries `dataRows = lines.length - 1` and the content hash of
    the CSV text. -/
def validateCsvSchema (hash : String → String) (csvData : String) :
    Except String CsvReport :=
  if (nonBlankLines csvData).length < 2 then
    .error "CSV has insufficient data"
  else if !(expectedHeaders.all fun h =>
      jsIncludes (jsToLower ((nonBlankLines csvData).headD "")) h) then
    .error "CSV missing required headers"
  else
    .ok { dataRows := (nonBlankLines csvData).length - 1
          csvLineCount := (nonBlankLines csvData).length
          csvHash := hash csvData }

/-! ## Raw listing entries, for the positional-alignment property of the
    regex parse -/

/-- An entry of the underlying XML listing: its `<Key>`, and its
    `<Size>` / `<LastModified>` elements when it carries them. -/
structure RawEntry where
  key : String
  entrySize : Option Nat
  entryLastMod : Option String
deriving Repr, DecidableEq

/-- The page the three independent regexes of lines 74-76 see for a
    given entry sequence: all keys in order, but only the present
    `<Size>` and `<LastModified>` values, compacted in order. -/
def pageOfEntries (es : List RawEntry) : Page :=
  { keys := es.map RawEntry.key
    sizes := es.filterMap RawEntry.entrySize
    lastMods := es.filterMap RawEntry.entryLastMod
    isTruncated := false
    nextMarker := none }

/-- The descriptor an entry should yield when its own fields are used:
    its key's filename and URLs, its own size (0 when absent) and its
    own timestamp (`now` when absent). -/
def alignedDesc (sym now : String) (e : RawEntry) : FileDesc :=
  { symbol := sym
    filename := filenameOf e.key
    url := hostBase ++ e.key
    checksumUrl := hostBase ++ e.key ++ ".CHECKSUM"
    size := e.entrySize.getD 0
    lastModified := e.entryLastMod.getD now }

/-- A listing response is complete when every key position also carries
    a `<LastModified>` element, so the `new Date().toISOString()`
    fallback of line 90 is never taken.  An error response trivially
    qualifies (no entry is parsed from it). -/
def responseComplete : Except String Page → Bool
  | .error _ => true
  | .ok p => decide (p.keys.length ≤ p.lastMods.length)

/-! ## Concrete fixtures used by witnesses and counterexamples -/

/-- A two-page listing: page 1 is truncated with a `NextMarker` and
    holds two archives and one sidecar, page 2 is final with one
    archive. -/
def twoPageListing : List Page :=
  [ { keys := ["d/a.zip", "d/a.zip.CHECKSUM", "d/b.zip"]
      sizes := [3, 1, 4]
      lastMods := ["m1", "m2", "m3"]
      isTruncated := true
      nextMarker := some "d/b.zip" }
  , { keys := ["d/c.zip"]
      sizes := [5]
      lastMods := ["m4"]
      isTruncated := false
      nextMarker := none } ]

/-- A final page whose single archive entry has no `<LastModified>`
    element, so the parser falls back to the current time. -/
def singlePageNoLastMod : Page :=
  { keys := ["a.zip"]
    sizes := []
    lastMods := []
    isTruncated := false
    nextMarker := none }

/-- A truncated page carrying one archive entry, followed in the
    counterexample run by a failing listing request. -/
def gatheredPage : Page :=
  { keys := ["a.zip"]
    sizes := [3]
    lastMods := ["m"]
    isTruncated := true
    nextMarker := some "a.zip" }

/-- Two entries of which the first omits its `<Size>` element: the
    compacted size list starts with the second entry's size. -/
def misalignedEntries : List RawEntry :=
  [ { key := "a.zip", entrySize := none, entryLastMod := some "t1" }
  , { key := "b.zip", entrySize := some 7, entryLastMod := some "t2" } ]

/-- One complete entry, used to instantiate the alignment theorem. -/
def completeEntries : List RawEntry :=
  [ { key := "x.zip", entrySize := some 3, entryLastMod := some "m" } ]

/-- A pool whose retry queue holds one item already failed four times,
    about to be attempted for the fifth and final time. -/
def poolFixture : PoolState :=
  { primaryQ := [⟨2, 0, ""⟩]
    timers := []
    retryQ := [⟨7, 4, "e4"⟩]
    failed := []
    succeeded := [] }

/-- Events run after the final failure in the C8 witness: the scraper
    tries to enqueue id 7 again, a timer fires, and a successful
    attempt drains another item. -/
def eventsFixture : List PoolEvent :=
  [.enqueue 7, .timerFire, .attempt true "", .enqueue 9, .attempt false "x"]

/-! ## Lemmas about the page parse -/

theorem parseKeys_map_filename (sym now : String) (sizes : List Nat)
    (mods : List String) :
    ∀ (ks : List String) (i : Nat),
      (parseKeys sym now sizes mods i ks).map FileDesc.filename
        = (ks.filter includeKey).map filenameOf
  | [], _ => rfl
  | k :: ks, i => by
    by_cases h : includeKey k = true <;>
      simp [parseKeys, h, mkDesc, List.filter_cons,
        parseKeys_map_filename sym now sizes mods ks (i + 1)]

theorem parseKeys_symbol (sym now : String) (sizes : List Nat)
    (mods : List String) :
    ∀ (ks : List String) (i : Nat),
      ∀ f ∈ parseKeys sym now sizes mods i ks, f.symbol = sym
  | [], _ => by simp [parseKeys]
  | k :: ks, i => by
    by_cases h : includeKey k = true <;>
      simp [parseKeys, h, mkDesc] <;>
      exact parseKeys_symbol sym now sizes mods ks (i + 1)

theorem parsePage_map_filename (sym now : String) (p : Page) :
    (parsePage sym now p).map FileDesc.filename
      = (p.keys.filter includeKey).map filenameOf :=
  parseKeys_map_filename sym now p.sizes p.lastMods p.keys 0

theorem parsePage_symbol (sym now : String) (p : Page) :
    ∀ f ∈ parsePage sym now p, f.symbol = sym :=
  parseKeys_symbol sym now p.sizes p.lastMods p.keys 0

theorem flatMap_parsePage_map_filename (sym now : String) :
    ∀ ps : List Page,
      (ps.flatMap (parsePage sym now)).map FileDesc.filename
        = ((ps.flatMap Page.keys).filter includeKey).map filenameOf
  | [] => rfl
  | p :: ps => by
    simp only [List.flatMap_cons, List.map_append, List.filter_append,
      parsePage_map_filename, flatMap_parsePage_map_filename sym now ps]

theorem flatMap_parsePage_symbol (sym now : String) :
    ∀ (ps : List Page), ∀ f ∈ ps.flatMap (parsePage sym now), f.symbol = sym := by
  intro ps f hf
  rw [List.mem_flatMap] at hf
  obtain ⟨p, _, hfp⟩ := hf
  exact parsePage_symbol sym now p f hfp

theorem nodup_symbol_filename_pairs (sym : String) :
    ∀ l : List FileDesc, (∀ f ∈ l, f.symbol = sym) →
      (l.map FileDesc.filename).Nodup →
      (l.map fun f => (f.symbol, f.filename)).Nodup
  | [], _, _ => by simp
  | f :: l, hsym, hnd => by
    simp only [List.map_cons, List.nodup_cons] at hnd ⊢
    refine ⟨?_, nodup_symbol_filename_pairs sym l
      (fun g hg => hsym g (List.mem_cons_of_mem f hg)) hnd.2⟩
    intro hmem
    rw [List.mem_map] at hmem
    obtain ⟨g, hg, heq⟩ := hmem
    apply hnd.1
    rw [List.mem_map]
    exact ⟨g, hg, congrArg Prod.snd heq⟩

/-! ## Lemmas about the pagination loop -/

theorem discoverGo_cons_last (sym now : String) (p : Page)
    (rest : List (Except String Page)) (acc : List FileDesc)
    (htr : p.isTruncated = false) :
    discoverGo sym now (Except.ok p :: rest) acc
      = .ok (acc ++ parsePage sym now p) := by
  simp [discoverGo, htr]

theorem discoverGo_cons_continue (sym now : String) (p : Page)
    (rest : List (Except String Page)) (acc : List FileDesc)
    (htr : p.isTruncated = true)
    (hcont : (p.nextMarker.isSome || !p.keys.isEmpty) = true) :
    discoverGo sym now (Except.ok p :: rest) acc
      = discoverGo sym now rest (acc ++ parsePage sym now p) := by
  rcases Bool.or_eq_true _ _ |>.mp hcont with hmk | hkeys
  · simp [discoverGo, htr, hmk]
  · by_cases hmk : p.nextMarker.isSome = true
    · simp [discoverGo, htr, hmk]
    · have hne : p.keys.isEmpty = false := by
        cases hk : p.keys.isEmpty
        · rfl
        · rw [hk] at hkeys; simp at hkeys
      simp [discoverGo, htr, hmk, hne]

theorem discoverGo_wellFormed (sym now : String) :
    ∀ (ps : List Page) (acc : List FileDesc),
      wellFormedPages ps = true →
      discoverGo sym now (ps.map Except.ok) acc
        = .ok (acc ++ ps.flatMap (parsePage sym now))
  | [], _, hwf => by simp [wellFormedPages] at hwf
  | [p], acc, hwf => by
    simp only [wellFormedPages] at hwf
    have htr : p.isTruncated = false := by
      cases h : p.isTruncated
      · rfl
      · rw [h] at hwf; simp at hwf
    rw [List.map_cons, List.map_nil, discoverGo_cons_last sym now p [] acc htr]
    simp
  | p :: q :: ps, acc, hwf => by
    simp only [wellFormedPages, Bool.and_eq_true, pageContinues] at hwf
    obtain ⟨⟨htr, hcont⟩, hwf2⟩ := hwf
    have ih := discoverGo_wellFormed sym now (q :: ps)
      (acc ++ parsePage sym now p) hwf2
    rw [List.map_cons, discoverGo_cons_continue sym now p _ acc htr hcont, ih]
    simp [List.flatMap_cons, List.append_assoc]

/-- C3: for a symbol whose listing pages together contain N entries
    ending in the archive suffix `.zip` (entries whose filenames are
    pairwise distinct, as marker pagination over one prefix yields),
    `discoverFilesWithXML` returns a manifest of exactly N descriptors,
    whose filenames are the included keys' filenames in the server's
    order, with no duplicate (symbol, filename) pair, containing only
    archive entries and no `.zip.CHECKSUM` sidecar — regardless of how
    the entries are spread over the pages. -/
theorem discover_manifest_complete (sym now : String) (ps : List Page)
    (hwf : wellFormedPages ps = true)
    (hdist : (((ps.flatMap Page.keys).filter includeKey).map filenameOf).Nodup) :
    ∃ out, discoverFilesWithXML sym now (ps.map Except.ok) = .ok out
      ∧ out.length = ((ps.flatMap Page.keys).filter includeKey).length
      ∧ out.map FileDesc.filename
          = ((ps.flatMap Page.keys).filter includeKey).map filenameOf
      ∧ (out.map fun f => (f.symbol, f.filename)).Nodup := by
  refine ⟨ps.flatMap (parsePage sym now), ?_, ?_, ?_, ?_⟩
  · rw [discoverFilesWithXML, discoverGo_wellFormed sym now ps [] hwf,
      List.nil_append]
  · have := flatMap_parsePage_map_filename sym now ps
    calc (ps.flatMap (parsePage sym now)).length
        = ((ps.flatMap (parsePage sym now)).map FileDesc.filename).length := by
          rw [List.length_map]
      _ = (((ps.flatMap Page.keys).filter includeKey).map filenameOf).length := by
          rw [this]
      _ = ((ps.flatMap Page.keys).filter includeKey).length := by
          rw [List.length_map]
  · exact flatMap_parsePage_map_filename sym now ps
  · apply nodup_symbol_filename_pairs sym _ (flatMap_parsePage_symbol sym now ps)
    rw [flatMap_parsePage_map_filename sym now ps]
    exact hdist

/-- Witness for C3: the two-page fixture listing, three archive entries
    across the pages. -/
theorem discover_manifest_complete_witness :
    ∃ out, discoverFilesWithXML "SYM" "T" (twoPageListing.map Except.ok) = .ok out
      ∧ out.length = ((twoPageListing.flatMap Page.keys).filter includeKey).length
      ∧ out.map FileDesc.filename
          = ((twoPageListing.flatMap Page.keys).filter includeKey).map filenameOf
      ∧ (out.map fun f => (f.symbol, f.filename)).Nodup :=
  discover_manifest_complete "SYM" "T" twoPageListing (by decide) (by decide)

/-! ## Idempotence of discovery (claim C5) -/

theorem parseKeys_now_irrelevant (sym now1 now2 : String) (sizes : List Nat)
    (mods : List String) :
    ∀ (ks : List String) (i : Nat), i + ks.length ≤ mods.length →
      parseKeys sym now1 sizes mods i ks = parseKeys sym now2 sizes mods i ks
  | [], _, _ => rfl
  | k :: ks, i, h => by
    have hi : i < mods.length := by
      simp only [List.length_cons] at h; omega
    have ih := parseKeys_now_irrelevant sym now1 now2 sizes mods ks (i + 1)
      (by simp only [List.length_cons] at h; omega)
    by_cases hk : includeKey k = true <;>
      simp [parseKeys, hk, mkDesc, List.getElem?_eq_getElem hi, ih]

theorem parsePage_now_irrelevant (sym now1 now2 : String) (p : Page)
    (h : p.keys.length ≤ p.lastMods.length) :
    parsePage sym now1 p = parsePage sym now2 p :=
  parseKeys_now_irrelevant sym now1 now2 p.sizes p.lastMods p.keys 0
    (by simpa using h)

theorem discoverGo_now_irrelevant (sym now1 now2 : String) :
    ∀ (resp : List (Except String Page)) (acc : List FileDesc),
      resp.all responseComplete = true →
      discoverGo sym now1 resp acc = discoverGo sym now2 resp acc
  | [], _, _ => rfl
  | .error e :: _, acc, _ => by simp [discoverGo]
  | .ok p :: rest, acc, h => by
    rw [List.all_cons, Bool.and_eq_true] at h
    obtain ⟨h1, h2⟩ := h
    have hle : p.keys.length ≤ p.lastMods.length := by
      simpa [responseComplete] using h1
    have hp := parsePage_now_irrelevant sym now1 now2 p hle
    have ih := discoverGo_now_irrelevant sym now1 now2 rest
      (acc ++ parsePage sym now2 p) h2
    simp only [discoverGo, hp, ih]

/-- C5 counterexample: against the unchanged single-page listing whose
    one archive entry has no LastModified element, two `discover` calls
    at distinct instants return different manifests — the parser
    substitutes the current time (`new Date().toISOString()`, line 90)
    for the missing field. -/
theorem discover_differs_across_calls :
    discoverFilesWithXML "S" "t1" [Except.ok singlePageNoLastMod]
      ≠ discoverFilesWithXML "S" "t2" [Except.ok singlePageNoLastMod] := by
  decide

/-- C5 (amended): discovery is idempotent whenever every listed entry
    carries a LastModified element — the manifest is then a pure
    function of the server's responses, independent of the wall clock;
    when an entry omits the element, the fallback to the current time
    can make two otherwise identical runs differ in that field. -/
theorem discover_idempotent_when_complete (sym now1 now2 : String)
    (resp : List (Except String Page))
    (h : resp.all responseComplete = true) :
    discoverFilesWithXML sym now1 resp = discoverFilesWithXML sym now2 resp :=
  discoverGo_now_irrelevant sym now1 now2 resp [] h

/-- Witness for the amended C5: the two-page fixture, all entries
    complete, run at two different instants. -/
theorem discover_idempotent_when_complete_witness :
    discoverFilesWithXML "SYM" "t1" (twoPageListing.map Except.ok)
      = discoverFilesWithXML "SYM" "t2" (twoPageListing.map Except.ok) :=
  discover_idempotent_when_complete "SYM" "t1" "t2"
    (twoPageListing.map Except.ok) (by decide)

/-! ## Failure on a later page discards the gathered entries (claim C6) -/

theorem discoverGo_error (sym now e : String) :
    ∀ (ps : List Page) (rest : List (Except String Page)) (acc : List FileDesc),
      ps.all pageContinues = true →
      discoverGo sym now (ps.map Except.ok ++ Except.error e :: rest) acc
        = .error e
  | [], rest, acc, _ => by simp [discoverGo]
  | p :: ps, rest, acc, h => by
    rw [List.all_cons, Bool.and_eq_true] at h
    obtain ⟨h1, h2⟩ := h
    simp only [pageContinues, Bool.and_eq_true] at h1
    rw [List.map_cons, List.cons_append,
      discoverGo_cons_continue sym now p _ acc h1.1 h1.2]
    exact discoverGo_error sym now e ps rest _ h2

/-- C6 counterexample: page 1 contributes one descriptor, the request
    for page 2 fails after the retry budget; the `catch` of lines
    141-144 rethrows, so the call returns `Except.error` — a value
    carrying the error alone and no manifest — although one descriptor
    had been gathered.  The claim that the partial manifest is surfaced
    together with the error is therefore false on this input. -/
theorem discovery_error_alone :
    discoverFilesWithXML "S" "T" [Except.ok gatheredPage, Except.error "HTTP 500"]
      = .error "HTTP 500"
    ∧ (parsePage "S" "T" gatheredPage).length = 1 := by decide

/-- C6 (amended): when a page request fails after the listing retry
    budget, `discoverFilesWithXML` propagates the error alone; the
    entries gathered from the earlier pages are discarded (the local
    `files` accumulator dies with the rethrow), whatever those pages
    contained. -/
theorem discovery_error_discards_partial (sym now e : String)
    (ps : List Page) (rest : List (Except String Page))
    (h : ps.all pageContinues = true) :
    discoverFilesWithXML sym now (ps.map Except.ok ++ Except.error e :: rest)
      = .error e :=
  discoverGo_error sym now e ps rest [] h

/-- Witness for the amended C6: one gathered page, then a failing
    request. -/
theorem discovery_error_discards_partial_witness :
    discoverFilesWithXML "S" "T"
        ([gatheredPage].map Except.ok ++ Except.error "HTTP 500" :: [])
      = .error "HTTP 500" :=
  discovery_error_discards_partial "S" "T" "HTTP 500" [gatheredPage] []
    (by decide)

/-! ## Retry policy of the listing fetch (claim C4) -/

theorem fetchXML_net_then_ok (msg body : String) :
    ∀ (k r : Nat), r + k ≤ maxRetries →
      fetchXML r (List.replicate k (.netError msg) ++ [.ok body])
        = (.ok body, (List.range' (r + 1) k).map fun i => retryDelayMs * i)
  | 0, r, _ => by simp [fetchXML]
  | k + 1, r, h => by
    have hr : r < maxRetries := by omega
    have ih := fetchXML_net_then_ok msg body k (r + 1) (by omega)
    simp only [List.replicate_succ, List.cons_append, fetchXML, hr, if_true,
      List.append_eq, ih, List.range'_succ, List.map_cons]

/-- C4 counterexample: a 503 listing response rejects at once with no
    retry and no delay (the response handler of lines 152-155 rejects
    before any retry logic can run), and the delay slept before the
    third retry of a network error is `retryDelay * 3 = 6000` ms — the
    attempt-indexed doubling the claim states would give
    `retryDelay * 2 ^ 2 = 8000` ms.  A timeout likewise rejects at once. -/
theorem fetch_retry_policy_refuted :
    fetchXML 0 [.httpStatus 503] = (.error "HTTP 503", [])
    ∧ fetchXML 0 [.timeout] = (.error "Request timeout", [])
    ∧ (fetchXML 0 [.netError "refused", .netError "refused",
        .netError "refused", .ok "x"]).2 = [2000, 4000, 6000]
    ∧ 6000 ≠ retryDelayMs * 2 ^ 2 := by decide

/-- C4 (amended): only request-level network errors are retried by
    `fetchXML`; a non-2xx status or a timeout rejects immediately with
    no retry; the delay before retry number `n` (1-based) is the linear
    `retryDelay * n`, uncapped; attempts are bounded by `maxRetries`,
    and after `maxRetries` retries the network error itself propagates
    (having slept the five linear delays).  In part_002 the caller
    `scrapeSymbolFiles` does retry every failure kind, but with the
    same linear delay. -/
theorem fetch_retries_network_errors_linearly (k : Nat) (hk : k ≤ maxRetries)
    (body msg : String) (s : Nat) (rest : List FetchOutcome) :
    fetchXML 0 (List.replicate k (.netError msg) ++ [.ok body])
      = (.ok body, (List.range' 1 k).map fun i => retryDelayMs * i)
    ∧ fetchXML 0 (.httpStatus s :: rest) = (.error ("HTTP " ++ toString s), [])
    ∧ fetchXML 0 (.timeout :: rest) = (.error "Request timeout", [])
    ∧ (fetchXML 0 (List.replicate (maxRetries + 1) (.netError msg))).1
        = .error msg
    ∧ (fetchXML 0 (List.replicate (maxRetries + 1) (.netError msg))).2
        = [2000, 4000, 6000, 8000, 10000] := by
  refine ⟨?_, rfl, rfl, ?_, ?_⟩
  · simpa using fetchXML_net_then_ok msg body k 0 (by omega)
  · simp [maxRetries, List.replicate_succ, fetchXML, retryDelayMs]
  · simp [maxRetries, List.replicate_succ, fetchXML, retryDelayMs]

/-- Witness for the amended C4: two network errors, then success. -/
theorem fetch_retries_network_errors_linearly_witness :
    fetchXML 0 (List.replicate 2 (.netError "refused") ++ [.ok "body"])
      = (.ok "body", (List.range' 1 2).map fun i => retryDelayMs * i)
    ∧ fetchXML 0 (.httpStatus 404 :: []) = (.error ("HTTP " ++ toString 404), [])
    ∧ fetchXML 0 (.timeout :: []) = (.error "Request timeout", [])
    ∧ (fetchXML 0 (List.replicate (maxRetries + 1) (.netError "refused"))).1
        = .error "refused"
    ∧ (fetchXML 0 (List.replicate (maxRetries + 1) (.netError "refused"))).2
        = [2000, 4000, 6000, 8000, 10000] :=
  fetch_retries_network_errors_linearly 2 (by decide) "body" "refused" 404 []

/-! ## The adapted download counts bytes but writes none (claim C1) -/

/-- C1: in `downloadFileWithRetry` the response is never piped or
    written into the `createWriteStream` it opens, so a successful
    transfer of the body chunk `[1, 2, 3]` resolves with
    `bytes = 3` while the local file holds zero bytes — the reported
    `bytes_written` does not equal the bytes persisted, and the file
    does not contain the received bytes.  part_002's `downloadFile`
    (which does call `fileStream.write` per chunk) persists exactly the
    received bytes on the same body, showing the write was the intent. -/
theorem adapted_download_never_writes :
    downloadFileWithRetryRun [[1, 2, 3]]
      = { downloadedBytes := 3, fileContent := [] }
    ∧ (downloadFileWithRetryRun [[1, 2, 3]]).fileContent.length
        ≠ (downloadFileWithRetryRun [[1, 2, 3]]).downloadedBytes
    ∧ part002Download 3 [[1, 2], [3]]
        = .ok { downloadedBytes := 3, fileContent := [1, 2, 3] } := by
  decide

/-! ## Checksum comparison against the whole sidecar body (claim C2) -/

/-- C2: `split()` with no separator does not tokenize, so
    `verifyChecksum` compares the archive digest against the entire
    trimmed lowercased sidecar body.  For the body "ABC123 file.zip"
    whose first whitespace-delimited token matches the digest
    "abc123", the code reports a mismatch while the spec's first-token
    comparison accepts; the code accepts only a body that is exactly
    the digest. -/
theorem checksum_compares_whole_body :
    verifyChecksum "ABC123 file.zip" "abc123" = false
    ∧ specFirstTokenValid "ABC123 file.zip" "abc123" = true
    ∧ verifyChecksum " ABC123 " "abc123" = true := by
  decide

/-! ## Existing-file checks before a transfer (claim C7) -/

/-- C7 counterexample: in github_actions_worker's `downloadFile` a
    local file of 5 bytes against a descriptor expecting 10 bytes is
    skipped as already complete, with zero network requests, instead of
    being deleted and re-downloaded as the claim states — the check of
    lines 188-194 never consults the descriptor's size. -/
theorem github_precheck_skips_mismatched_file :
    githubDownloadPrecheck 10 (.present 5) = .skipDownload
    ∧ requestCount (githubDownloadPrecheck 10 (.present 5)) = 0
    ∧ githubDownloadPrecheck 10 (.present 5) ≠ .deleteThenFetch := by
  decide

/-- C7 (amended): part_002's `downloadFile` skips — with zero network
    requests — exactly when the existing file's size equals the
    descriptor's size field (even when that field is 0, i.e. unknown),
    deletes-and-refetches on any other existing size, and fetches when
    no file exists; github_actions_worker's `downloadFile` instead
    skips any existing non-empty file regardless of the descriptor's
    expected size and never deletes a mismatched file. -/
theorem precheck_skip_behaviour (descSize : Nat) (lf : LocalFile) :
    (downloadFilePrecheck descSize lf = .skipDownload ↔ lf = .present descSize)
    ∧ (requestCount (downloadFilePrecheck descSize lf) = 0
        ↔ downloadFilePrecheck descSize lf = .skipDownload)
    ∧ (∀ s, lf = .present s → s ≠ descSize →
        downloadFilePrecheck descSize lf = .deleteThenFetch)
    ∧ (lf = .absent → downloadFilePrecheck descSize lf = .fetch)
    ∧ (∀ s, lf = .present s → 0 < s →
        githubDownloadPrecheck descSize lf = .skipDownload)
    ∧ (∀ s, lf = .present s → githubDownloadPrecheck descSize lf ≠ .deleteThenFetch) := by
  cases lf with
  | absent => simp [downloadFilePrecheck, githubDownloadPrecheck, requestCount]
  | present s =>
    by_cases hs : s = descSize <;> by_cases hz : 0 < s <;>
      simp_all [downloadFilePrecheck, githubDownloadPrecheck, requestCount]

/-! ## Schema validation of the extracted CSV (claim C9) -/

/-- C9: schema validation passes exactly when at least two non-blank
    lines exist and the lowercased header line contains every required
    column name as a substring (order-independent); a passing result
    carries the data-row count `lines - 1` (hence at least one data
    row) and the content hash of the CSV text. -/
theorem csv_schema_validation_spec (hash : String → String) (csvData : String) :
    ((∃ r, validateCsvSchema hash csvData = .ok r)
      ↔ 2 ≤ (nonBlankLines csvData).length
        ∧ ∀ h ∈ expectedHeaders,
            jsIncludes (jsToLower ((nonBlankLines csvData).headD "")) h = true)
    ∧ ∀ r, validateCsvSchema hash csvData = .ok r →
        r.dataRows = (nonBlankLines csvData).length - 1
        ∧ r.csvLineCount = (nonBlankLines csvData).length
        ∧ r.csvHash = hash csvData
        ∧ 1 ≤ r.dataRows := by
  constructor
  · constructor
    · rintro ⟨r, hr⟩
      unfold validateCsvSchema at hr
      split_ifs at hr with h1 h2
      refine ⟨by omega, ?_⟩
      simp only [Bool.not_eq_true, Bool.not_eq_false] at h2
      simpa [List.all_eq_true] using h2
    · rintro ⟨hlen, hall⟩
      have hb : (expectedHeaders.all fun h =>
          jsIncludes (jsToLower ((nonBlankLines csvData).headD "")) h) = true := by
        simpa [List.all_eq_true] using hall
      refine ⟨{ dataRows := (nonBlankLines csvData).length - 1
                csvLineCount := (nonBlankLines csvData).length
                csvHash := hash csvData }, ?_⟩
      unfold validateCsvSchema
      rw [if_neg (by omega), if_neg (by rw [hb]; simp)]
  · intro r hr
    unfold validateCsvSchema at hr
    split_ifs at hr with h1 h2
    rw [Except.ok.injEq] at hr
    rw [← hr]
    refine ⟨rfl, rfl, rfl, ?_⟩
    show 1 ≤ (nonBlankLines csvData).length - 1
    omega

/-! ## Positional alignment of the regex listing parse (claim C10) -/

theorem sizes_of_complete :
    ∀ es : List RawEntry, (∀ e ∈ es, e.entrySize.isSome = true) →
      es.filterMap RawEntry.entrySize = es.map fun e => e.entrySize.getD 0
  | [], _ => rfl
  | e :: es, h => by
    obtain ⟨s, hs⟩ := Option.isSome_iff_exists.mp (h e (List.mem_cons_self e es))
    simp [List.filterMap_cons, hs,
      sizes_of_complete es fun g hg => h g (List.mem_cons_of_mem e hg)]

theorem mods_of_complete (now : String) :
    ∀ es : List RawEntry, (∀ e ∈ es, e.entryLastMod.isSome = true) →
      es.filterMap RawEntry.entryLastMod = es.map fun e => e.entryLastMod.getD now
  | [], _ => rfl
  | e :: es, h => by
    obtain ⟨s, hs⟩ := Option.isSome_iff_exists.mp (h e (List.mem_cons_self e es))
    simp [List.filterMap_cons, hs,
      mods_of_complete now es fun g hg => h g (List.mem_cons_of_mem e hg)]

theorem parseKeys_aligned (sym now : String) :
    ∀ (es pre : List RawEntry),
      parseKeys sym now
        ((pre ++ es).map fun e => e.entrySize.getD 0)
        ((pre ++ es).map fun e => e.entryLastMod.getD now)
        pre.length (es.map RawEntry.key)
      = es.filterMap fun e =>
          if includeKey e.key then some (alignedDesc sym now e) else none
  | [], _ => by simp [parseKeys]
  | e :: es, pre => by
    have hget1 : ((pre ++ e :: es).map fun g => g.entrySize.getD 0)[pre.length]?
        = some (e.entrySize.getD 0) := by
      rw [List.getElem?_map, List.getElem?_append_right (Nat.le_refl _)]
      simp
    have hget2 : ((pre ++ e :: es).map
          fun g => g.entryLastMod.getD now)[pre.length]?
        = some (e.entryLastMod.getD now) := by
      rw [List.getElem?_map, List.getElem?_append_right (Nat.le_refl _)]
      simp
    have ih := parseKeys_aligned sym now es (pre ++ [e])
    rw [show (pre ++ [e]) ++ es = pre ++ e :: es by simp] at ih
    rw [show (pre ++ [e]).length = pre.length + 1 by simp] at ih
    rw [List.map_cons]
    simp only [parseKeys]
    rw [List.filterMap_cons]
    by_cases hk : includeKey e.key = true
    · rw [if_pos hk, if_pos hk, ih]
      congr 1
      simp only [mkDesc, alignedDesc, List.get?_eq_getElem?]
      rw [hget1, hget2]
      rfl
    · rw [if_neg hk, if_neg hk, ih]

/-- C10: the regex parse takes each descriptor's size and timestamp
    from the `<Size>` and `<LastModified>` lists at the key's positional
    index; when every entry of a page carries all three elements, every
    descriptor receives its own entry's size and timestamp, while a
    page whose first entry omits `<Size>` assigns that descriptor the
    second entry's size (the fixture: descriptor sizes [7, 0] against
    the entries' own [0, 7]). -/
theorem regex_parse_positional_alignment (sym now : String) (es : List RawEntry)
    (hc : ∀ e ∈ es, e.entrySize.isSome = true ∧ e.entryLastMod.isSome = true) :
    parsePage sym now (pageOfEntries es)
      = es.filterMap (fun e =>
          if includeKey e.key then some (alignedDesc sym now e) else none)
    ∧ (parsePage "SYM" "T" (pageOfEntries misalignedEntries)).map FileDesc.size
        = [7, 0]
    ∧ misalignedEntries.map (fun e => e.entrySize.getD 0) = [0, 7] := by
  refine ⟨?_, by decide, by decide⟩
  have h1 := sizes_of_complete es fun e he => (hc e he).1
  have h2 := mods_of_complete now es fun e he => (hc e he).2
  have h3 := parseKeys_aligned sym now es []
  simpa [parsePage, pageOfEntries, h1, h2] using h3

/-- Witness for C10: the one complete fixture entry keeps its own size
    and timestamp. -/
theorem regex_parse_positional_alignment_witness :
    parsePage "S" "N" (pageOfEntries completeEntries)
      = completeEntries.filterMap (fun e =>
          if includeKey e.key then some (alignedDesc "S" "N" e) else none)
    ∧ (parsePage "SYM" "T" (pageOfEntries misalignedEntries)).map FileDesc.size
        = [7, 0]
    ∧ misalignedEntries.map (fun e => e.entrySize.getD 0) = [0, 7] :=
  regex_parse_positional_alignment "S" "N" completeEntries (by decide)

/-! ## Permanent failure in the downloader pool (claim C8) -/

theorem mem_activeIds (s : PoolState) (x : Nat) :
    x ∈ activeIds s ↔
      x ∈ s.primaryQ.map WItem.wid ∨ x ∈ s.timers.map WItem.wid
        ∨ x ∈ s.retryQ.map WItem.wid := by
  simp [activeIds, List.mem_append, or_assoc]

theorem mem_allIds (s : PoolState) (x : Nat) :
    x ∈ allIds s ↔
      x ∈ s.primaryQ.map WItem.wid ∨ x ∈ s.timers.map WItem.wid
        ∨ x ∈ s.retryQ.map WItem.wid ∨ x ∈ s.failed.map WItem.wid
        ∨ x ∈ s.succeeded.map WItem.wid := by
  simp [allIds, List.mem_append, or_assoc]

theorem dequeue_spec (s : PoolState) (w : WItem) (s2 : PoolState)
    (h : dequeue s = some (w, s2)) :
    s2.failed = s.failed
    ∧ w.wid ∈ activeIds s
    ∧ ∀ x, x ∈ activeIds s2 → x ∈ activeIds s := by
  unfold dequeue at h
  rcases hr : s.retryQ with _ | ⟨a, l⟩ <;> rw [hr] at h
  · rcases hp : s.primaryQ with _ | ⟨b, m⟩ <;> rw [hp] at h
    · simp at h
    · simp only [Option.some.injEq, Prod.mk.injEq] at h
      obtain ⟨hw, hs2⟩ := h
      subst hw
      subst hs2
      refine ⟨rfl, ?_, ?_⟩
      · simp [mem_activeIds, hp]
      · intro x hx
        simp only [mem_activeIds, hp, hr, List.map_cons, List.mem_cons,
          List.map_nil, List.not_mem_nil, or_false] at hx ⊢
        tauto
  · simp only [Option.some.injEq, Prod.mk.injEq] at h
    obtain ⟨hw, hs2⟩ := h
    subst hw
    subst hs2
    refine ⟨rfl, ?_, ?_⟩
    · simp [mem_activeIds, hr]
    · intro x hx
      simp only [mem_activeIds, hr, List.map_cons, List.mem_cons] at hx ⊢
      tauto

theorem active_nodup (s : PoolState) (h : (allIds s).Nodup) :
    (activeIds s).Nodup := by
  have hs : List.Sublist (s.primaryQ ++ s.timers ++ s.retryQ)
      (s.primaryQ ++ s.timers ++ s.retryQ ++ s.failed ++ s.succeeded) :=
    List.Sublist.trans (List.sublist_append_left _ s.failed)
      (List.sublist_append_left _ s.succeeded)
  exact List.Nodup.sublist (hs.map WItem.wid) h

theorem dequeue_wid_not_active (s : PoolState) (w : WItem) (s2 : PoolState)
    (hnd : (allIds s).Nodup) (h : dequeue s = some (w, s2)) :
    w.wid ∉ activeIds s2 := by
  have hact := active_nodup s hnd
  unfold dequeue at h
  rcases hr : s.retryQ with _ | ⟨a, l⟩ <;> rw [hr] at h
  · rcases hp : s.primaryQ with _ | ⟨b, m⟩ <;> rw [hp] at h
    · simp at h
    · simp only [Option.some.injEq, Prod.mk.injEq] at h
      obtain ⟨hw, hs2⟩ := h
      subst hw
      subst hs2
      rw [activeIds, hp, hr] at hact
      simp only [List.map_append, List.map_cons, List.map_nil,
        List.append_nil, List.cons_append, List.nodup_cons] at hact
      intro hmem
      apply hact.1
      simp only [mem_activeIds, hr, List.map_nil, List.not_mem_nil,
        or_false] at hmem
      simp only [List.mem_append]
      tauto
  · simp only [Option.some.injEq, Prod.mk.injEq] at h
    obtain ⟨hw, hs2⟩ := h
    subst hw
    subst hs2
    rw [activeIds, hr] at hact
    have hperm : ((s.primaryQ ++ s.timers) ++ a :: l).Perm
        (a :: (s.primaryQ ++ s.timers ++ l)) := List.perm_middle
    have hact2 : ((a :: (s.primaryQ ++ s.timers ++ l)).map WItem.wid).Nodup := by
      refine ((hperm.map WItem.wid).nodup_iff).mp ?_
      simpa [List.append_assoc] using hact
    rw [List.map_cons, List.nodup_cons] at hact2
    intro hmem
    apply hact2.1
    simp only [mem_activeIds] at hmem
    simp only [List.map_append, List.mem_append]
    tauto

theorem mem_failed_step (w : WItem) (s : PoolState) (e : PoolEvent)
    (h : w ∈ s.failed) : w ∈ (step s e).failed := by
  cases e with
  | enqueue id => by_cases hc : id ∈ allIds s <;> simp [step, hc, h]
  | timerFire => cases ht : s.timers <;> simp [step, ht, h]
  | attempt ok err =>
    rcases hd : dequeue s with _ | ⟨w2, s2⟩
    · simpa [step, hd] using h
    · have hf := (dequeue_spec s w2 s2 hd).1
      cases ok
      · by_cases hlt : w2.retries + 1 < maxRetries <;>
          simp [step, hd, hlt, hf, h]
      · simp [step, hd, hf, h]

theorem step_enqueue_mem (s : PoolState) (i : Nat) (hc : i ∈ allIds s) :
    step s (.enqueue i) = s := by
  simp [step, hc]

theorem step_enqueue_fresh (s : PoolState) (i : Nat) (hc : i ∉ allIds s) :
    step s (.enqueue i) = { s with primaryQ := s.primaryQ ++ [⟨i, 0, ""⟩] } := by
  simp [step, hc]

theorem step_timer_nil (s : PoolState) (ht : s.timers = []) :
    step s .timerFire = s := by
  simp [step, ht]

theorem step_timer_cons (s : PoolState) (t : WItem) (rest : List WItem)
    (ht : s.timers = t :: rest) :
    step s .timerFire = { s with timers := rest, retryQ := s.retryQ ++ [t] } := by
  simp [step, ht]

theorem step_attempt_none (s : PoolState) (ok : Bool) (err : String)
    (hd : dequeue s = none) : step s (.attempt ok err) = s := by
  simp [step, hd]

theorem step_attempt_success (s : PoolState) (w : WItem) (s2 : PoolState)
    (err : String) (hd : dequeue s = some (w, s2)) :
    step s (.attempt true err) = { s2 with succeeded := s2.succeeded ++ [w] } := by
  simp [step, hd]

theorem step_attempt_fail_retry (s : PoolState) (w : WItem) (s2 : PoolState)
    (err : String) (hd : dequeue s = some (w, s2))
    (hlt : w.retries + 1 < maxRetries) :
    step s (.attempt false err)
      = { s2 with timers := s2.timers ++ [⟨w.wid, w.retries + 1, err⟩] } := by
  simp [step, hd, hlt]

theorem step_attempt_fail_perm (s : PoolState) (w : WItem) (s2 : PoolState)
    (err : String) (hd : dequeue s = some (w, s2))
    (hnlt : ¬ (w.retries + 1 < maxRetries)) :
    step s (.attempt false err)
      = { s2 with failed := s2.failed ++ [⟨w.wid, w.retries + 1, err⟩] } := by
  simp [step, hd, hnlt]

theorem failed_inactive_step (id : Nat) (s : PoolState) (e : PoolEvent)
    (hf : id ∈ s.failed.map WItem.wid) (ha : id ∉ activeIds s) :
    id ∈ (step s e).failed.map WItem.wid ∧ id ∉ activeIds (step s e) := by
  cases e with
  | enqueue i =>
    by_cases hc : i ∈ allIds s
    · rw [step_enqueue_mem s i hc]
      exact ⟨hf, ha⟩
    · have hidall : id ∈ allIds s := by
        rw [mem_allIds]
        tauto
      have hne : ¬ id = i := fun he => hc (he ▸ hidall)
      rw [step_enqueue_fresh s i hc]
      refine ⟨hf, ?_⟩
      simp only [mem_activeIds, List.map_append, List.mem_append,
        List.map_cons, List.map_nil, List.mem_cons, List.not_mem_nil,
        or_false] at ha ⊢
      tauto
  | timerFire =>
    cases ht : s.timers with
    | nil =>
      rw [step_timer_nil s ht]
      exact ⟨hf, ha⟩
    | cons t rest =>
      rw [step_timer_cons s t rest ht]
      refine ⟨hf, ?_⟩
      simp only [mem_activeIds, ht, List.map_append, List.mem_append,
        List.map_cons, List.mem_cons, List.map_nil, List.not_mem_nil,
        or_false] at ha ⊢
      tauto
  | attempt ok err =>
    rcases hd : dequeue s with _ | ⟨w, s2⟩
    · rw [step_attempt_none s ok err hd]
      exact ⟨hf, ha⟩
    · obtain ⟨hfe, hwin, hsub⟩ := dequeue_spec s w s2 hd
      have hwne : ¬ id = w.wid := fun he => ha (by rw [he]; exact hwin)
      have ha2 : id ∉ activeIds s2 := fun hx => ha (hsub id hx)
      have hf2 : id ∈ s2.failed.map WItem.wid := by
        rw [hfe]
        exact hf
      cases ok
      · by_cases hlt : w.retries + 1 < maxRetries
        · rw [step_attempt_fail_retry s w s2 err hd hlt]
          refine ⟨hf2, ?_⟩
          simp only [mem_activeIds, List.map_append, List.mem_append,
            List.map_cons, List.map_nil, List.mem_cons, List.not_mem_nil,
            or_false] at ha2 ⊢
          tauto
        · rw [step_attempt_fail_perm s w s2 err hd hlt]
          refine ⟨?_, ?_⟩
          · simp only [List.map_append, List.mem_append]
            exact Or.inl hf2
          · simpa only [mem_activeIds] using ha2
      · rw [step_attempt_success s w s2 err hd]
        exact ⟨hf2, by simpa only [mem_activeIds] using ha2⟩

theorem mem_failed_runPool (w : WItem) :
    ∀ (es : List PoolEvent) (s : PoolState),
      w ∈ s.failed → w ∈ (runPool s es).failed
  | [], _, h => h
  | e :: es, s, h =>
    mem_failed_runPool w es (step s e) (mem_failed_step w s e h)

theorem failed_inactive_runPool (id : Nat) :
    ∀ (es : List PoolEvent) (s : PoolState),
      id ∈ s.failed.map WItem.wid → id ∉ activeIds s →
      id ∈ (runPool s es).failed.map WItem.wid
        ∧ id ∉ activeIds (runPool s es)
  | [], _, hf, ha => ⟨hf, ha⟩
  | e :: es, s, hf, ha => by
    obtain ⟨hf2, ha2⟩ := failed_inactive_step id s e hf ha
    exact failed_inactive_runPool id es (step s e) hf2 ha2

/-- C8: when a dequeued WorkItem fails its final attempt — its retry
    counter reaching `maxRetries` — it is recorded in
    `state.failedDownloads` with exactly that retry count and the last
    error, it is on none of the primary queue, the retry queue or the
    pending retry timers, and it remains recorded and off all queues
    after any further sequence of pool events for the rest of the run
    (fresh enqueues by the scraper are new item identities, modelled by
    the freshness guard of `step`). -/
theorem workitem_permanent_failure (s : PoolState) (w : WItem) (s2 : PoolState)
    (err : String) (es : List PoolEvent)
    (hnd : (allIds s).Nodup)
    (hdeq : dequeue s = some (w, s2))
    (hmax : w.retries + 1 = maxRetries) :
    (⟨w.wid, maxRetries, err⟩ : WItem) ∈ (step s (.attempt false err)).failed
    ∧ w.wid ∉ activeIds (step s (.attempt false err))
    ∧ (⟨w.wid, maxRetries, err⟩ : WItem)
        ∈ (runPool (step s (.attempt false err)) es).failed
    ∧ w.wid ∉ activeIds (runPool (step s (.attempt false err)) es) := by
  have hnlt : ¬ (w.retries + 1 < maxRetries) := by omega
  have hstep : step s (.attempt false err)
      = { s2 with failed := s2.failed ++ [⟨w.wid, w.retries + 1, err⟩] } := by
    simp [step, hdeq, hnlt]
  have hnotact : w.wid ∉ activeIds s2 := dequeue_wid_not_active s w s2 hnd hdeq
  have h1 : (⟨w.wid, maxRetries, err⟩ : WItem)
      ∈ (step s (.attempt false err)).failed := by
    rw [hstep, ← hmax]
    simp
  have h2 : w.wid ∉ activeIds (step s (.attempt false err)) := by
    rw [hstep]
    simpa [mem_activeIds] using hnotact
  have h3 := mem_failed_runPool _ es _ h1
  have h4 := (failed_inactive_runPool w.wid es _
    (by simpa using List.mem_map_of_mem WItem.wid h1) h2).2
  exact ⟨h1, h2, h3, h4⟩

/-- Witness for C8: the fixture pool's retry-queue item (id 7, four
    earlier failures) fails its fifth attempt and stays permanently
    failed across the fixture event sequence. -/
theorem workitem_permanent_failure_witness :
    (⟨7, maxRetries, "boom"⟩ : WItem)
        ∈ (step poolFixture (.attempt false "boom")).failed
    ∧ 7 ∉ activeIds (step poolFixture (.attempt false "boom"))
    ∧ (⟨7, maxRetries, "boom"⟩ : WItem)
        ∈ (runPool (step poolFixture (.attempt false "boom")) eventsFixture).failed
    ∧ 7 ∉ activeIds (runPool (step poolFixture (.attempt false "boom")) eventsFixture) :=
  workitem_permanent_failure poolFixture ⟨7, 4, "e4"⟩
    { poolFixture with retryQ := [] } "boom" eventsFixture
    (by decide) (by decide) (by decide)

end KucoinCollector
